import Mathlib

/-!
Verification of the Serialization library interface (src/Serialization.hpp and
src/unnamed/part_000) against its specification.

The header declares eight overloads of serialize/deserialize.  Exactly one of
them has a body in the source: the span-based primitive serialize, whose body
consists of a single static_assert and nothing else.  The remaining seven
overloads are declarations without bodies.  The development therefore contains
three kinds of definitions: faithful embeddings of what is literally in the
source (the as-written body, the static_assert condition, the table of
declarations with their noexcept specifiers); definitions marked
"Modelled from the spec:" for the behavior of the seven overloads whose
bodies are absent from the source; and one clearly named definition of the
specification's contract for the defined-but-empty primitive serialize
(serialize_span), kept to compare the defined body against the contract and
to serve as the primitive step threaded by the spec-modelled group
overloads.

Buffers are modelled as lists of bytes (naturals below 256); byte views into a
buffer are suffix views, so the buffer-cursor convention "consume a prefix,
return the remaining suffix" becomes explicit list manipulation.
-/

namespace Serialization

/-- Byte order: the two values of std::endian the API selects between. -/
inductive Endian where
  | little
  | big
deriving DecidableEq, Repr

/-- A byte, modelled as a natural number (meaningful values are below 256). -/
abbrev Byte := Nat

/-- Modelled from the spec: the little-endian byte image of a `w`-byte value
(least-significant byte first, per the spec glossary).  The serializer bodies
are absent from the source header. -/
def toBytesLE : Nat → Nat → List Byte
  | 0, _ => []
  | w + 1, v => v % 256 :: toBytesLE w (v / 256)

/-- Modelled from the spec: the big-endian byte image of a `w`-byte value
(most-significant byte first, per the spec glossary). -/
def toBytesBE : Nat → Nat → List Byte
  | 0, _ => []
  | w + 1, v => toBytesBE w (v / 256) ++ [v % 256]

/-- Modelled from the spec: the byte image of a `w`-byte value in the requested
byte order. -/
def toBytes (w v : Nat) (e : Endian) : List Byte :=
  match e with
  | .little => toBytesLE w v
  | .big => toBytesBE w v

/-- Modelled from the spec: read a little-endian byte sequence back into a
value (inverse of `toBytesLE`). -/
def fromBytesLE : List Byte → Nat
  | [] => 0
  | b :: bs => b + 256 * fromBytesLE bs

/-- Modelled from the spec: read a byte sequence in the stated source order. -/
def fromBytes (bs : List Byte) (e : Endian) : Nat :=
  match e with
  | .little => fromBytesLE bs
  | .big => fromBytesLE bs.reverse

theorem toBytesLE_length (w v : Nat) : (toBytesLE w v).length = w := by
  induction w generalizing v with
  | zero => rfl
  | succ k ih => simp [toBytesLE, ih]

theorem toBytesBE_length (w v : Nat) : (toBytesBE w v).length = w := by
  induction w generalizing v with
  | zero => rfl
  | succ k ih => simp [toBytesBE, ih]

theorem toBytes_length (w v : Nat) (e : Endian) : (toBytes w v e).length = w := by
  cases e <;> simp [toBytes, toBytesLE_length, toBytesBE_length]

theorem toBytesBE_eq_reverse (w v : Nat) : toBytesBE w v = (toBytesLE w v).reverse := by
  induction w generalizing v with
  | zero => rfl
  | succ k ih => simp [toBytesBE, toBytesLE, ih]

theorem fromBytesLE_toBytesLE (w v : Nat) (hv : v < 256 ^ w) :
    fromBytesLE (toBytesLE w v) = v := by
  induction w generalizing v with
  | zero =>
    simp only [Nat.pow_zero, Nat.lt_one_iff] at hv
    simp [toBytesLE, fromBytesLE, hv]
  | succ k ih =>
    have hdiv : v / 256 < 256 ^ k := by
      rw [Nat.div_lt_iff_lt_mul (by omega)]
      calc v < 256 ^ (k + 1) := hv
        _ = 256 ^ k * 256 := by rw [Nat.pow_succ]
    simp only [toBytesLE, fromBytesLE, ih (v / 256) hdiv]
    omega

theorem fromBytes_toBytes (w v : Nat) (e : Endian) (hv : v < 256 ^ w) :
    fromBytes (toBytes w v e) e = v := by
  cases e with
  | little => exact fromBytesLE_toBytesLE w v hv
  | big =>
    simp only [fromBytes, toBytes, toBytesBE_eq_reverse, List.reverse_reverse]
    exact fromBytesLE_toBytesLE w v hv

/-- The span-based primitive serialize exactly as its body stands in the source
(src/Serialization.hpp lines 11-24 and src/unnamed/part_000): the body is a
single static_assert and nothing else, so no byte of the buffer is written and
the deduced return type is void (modelled as Unit).  The buffer is a reference
parameter, so its (unchanged) state after the call is returned explicitly. -/
def serialize_spanAsWritten (buffer : List Byte) (_inValue : Nat) (_targetEndian : Endian) :
    Unit × List Byte :=
  ((), buffer)

/-- The specification's contract (section 4.1) for the span-based primitive
serialize, stated from the spec's words: write the `w` bytes of `v` in order
`e` over the first `w` bytes of the view and return the updated buffer
together with the view of the remaining bytes.  The source does define this
overload, but its body is the static_assert-only no-op embedded as
`serialize_spanAsWritten` and implements none of this contract; this
definition is the comparison point for that divergence and the primitive
step that the spec-modelled, declaration-only group overloads thread. -/
def serialize_span (view : List Byte) (w v : Nat) (e : Endian) : List Byte × List Byte :=
  let updated := toBytes w v e ++ view.drop w
  (updated, updated.drop w)

/-- Modelled from the spec: the span-based primitive deserialize, declared but
not defined in the source.  It reads the first `w` bytes of the view in source
order `e` and returns the decoded value with the remaining view. -/
def deserialize_span (view : List Byte) (w : Nat) (e : Endian) : Nat × List Byte :=
  (fromBytes (view.take w) e, view.drop w)

/-- The category of a C++ type as seen by the overload machinery of the header:
whether it is arithmetic, an enumeration, and whether a user-supplied
serialize/deserialize overload is visible for it. -/
structure CppType where
  arithmetic : Bool
  enumeration : Bool
  hasUserOverload : Bool
deriving DecidableEq, Repr

/-- The static_assert condition in the body of the span-based primitive
serialize (src/Serialization.hpp line 22):
std::is_arithmetic_v or std::is_enum_v of T. -/
def primitiveCodecCheck (t : CppType) : Bool :=
  t.arithmetic || t.enumeration

/-- Compile-time dispatch of the header: a user-supplied overload found by ADL
is chosen when visible; otherwise the call lands on the primitive overload and
compiles only if its static_assert condition holds. -/
def codecCompiles (t : CppType) : Bool :=
  t.hasUserOverload || primitiveCodecCheck t

/-- Modelled from the spec: the compile-time size check of the fixed-capacity
overloads, whose bodies are absent from the source; the array size must equal
the encoded size of the value for the call to compile. -/
def fixedSizeCheck (arraySize w : Nat) : Bool :=
  arraySize == w

/-- One declaration of the header: its signature sketch, whether it is a
group-of-variables form, and whether it carries a noexcept specifier. -/
structure ApiDecl where
  signature : String
  isGroup : Bool
  noexceptSpec : Bool
deriving DecidableEq, Repr

/-- The eight declarations of src/Serialization.hpp in order of appearance.
The six single-value overloads are declared noexcept; the two group overloads
carry no noexcept specifier, in every copy of the header. -/
def apiDecls : List ApiDecl :=
  [⟨"serialize(span, value, endian)", false, true⟩,
   ⟨"serialize(array, value, endian)", false, true⟩,
   ⟨"deserialize(span, value ref, endian)", false, true⟩,
   ⟨"deserialize(span, endian)", false, true⟩,
   ⟨"deserialize(array, value ref, endian)", false, true⟩,
   ⟨"deserialize(array, endian)", false, true⟩,
   ⟨"serialize(span, endian, args)", true, false⟩,
   ⟨"deserialize(span, endian, args)", true, false⟩]

theorem take_append_length (l1 l2 : List Byte) (n : Nat) (h : l1.length = n) :
    (l1 ++ l2).take n = l1 := by
  subst h
  induction l1 with
  | nil => rfl
  | cons b bs ih => simp [ih]

theorem drop_append_length (l1 l2 : List Byte) (n : Nat) (h : l1.length = n) :
    (l1 ++ l2).drop n = l2 := by
  subst h
  induction l1 with
  | nil => rfl
  | cons b bs ih => simp [ih]

theorem serialize_span_fst (view : List Byte) (w v : Nat) (e : Endian) :
    (serialize_span view w v e).1 = toBytes w v e ++ view.drop w := rfl

theorem serialize_span_snd (view : List Byte) (w v : Nat) (e : Endian) :
    (serialize_span view w v e).2 = view.drop w := by
  simp only [serialize_span]
  exact drop_append_length _ _ _ (toBytes_length w v e)

theorem serialize_span_written (view : List Byte) (w v : Nat) (e : Endian) :
    (serialize_span view w v e).1.take w = toBytes w v e := by
  simp only [serialize_span_fst]
  exact take_append_length _ _ _ (toBytes_length w v e)

theorem serialize_span_fst_length (view : List Byte) (w v : Nat) (e : Endian)
    (hw : w ≤ view.length) :
    (serialize_span view w v e).1.length = view.length := by
  simp only [serialize_span_fst, List.length_append, toBytes_length, List.length_drop]
  omega

/-- Modelled from the spec: the group serialize of section 4.4, declared but
not defined in the source.  A heterogeneous argument pack is modelled as a
list of (encoded width, value) pairs.  Each argument is serialized left to
right through the span primitive, the remainder view of each step being the
input view of the next; the updated whole buffer and the final remainder are
returned. -/
def serialize_group (e : Endian) : List (Nat × Nat) → List Byte → List Byte × List Byte
  | [], view => (view, view)
  | a :: args, view =>
    let step := serialize_span view a.1 a.2 e
    let next := serialize_group e args step.2
    (step.1.take a.1 ++ next.1, next.2)

/-- Modelled from the spec: the group deserialize of section 4.4, declared but
not defined in the source.  The widths of the targets are given; the decoded
values are collected left to right, threading the remainder view. -/
def deserialize_group (e : Endian) : List Nat → List Byte → List Nat × List Byte
  | [], view => ([], view)
  | w :: ws, view =>
    let step := deserialize_span view w e
    let next := deserialize_group e ws step.2
    (step.1 :: next.1, next.2)

/-- The sum of the encoded sizes of a group of arguments. -/
def encodedSizes : List (Nat × Nat) → Nat
  | [] => 0
  | a :: args => a.1 + encodedSizes args

/-- The concatenation of the byte images of a group of arguments, left to
right, in byte order `e`: the wire layout of the group. -/
def groupImage (e : Endian) : List (Nat × Nat) → List Byte
  | [] => []
  | a :: args => toBytes a.1 a.2 e ++ groupImage e args

theorem groupImage_length (e : Endian) (args : List (Nat × Nat)) :
    (groupImage e args).length = encodedSizes args := by
  induction args with
  | nil => rfl
  | cons a args ih =>
    simp [groupImage, encodedSizes, toBytes_length, ih]

theorem serialize_group_eq (e : Endian) (args : List (Nat × Nat)) (view : List Byte)
    (h : encodedSizes args ≤ view.length) :
    serialize_group e args view =
      (groupImage e args ++ view.drop (encodedSizes args), view.drop (encodedSizes args)) := by
  induction args generalizing view with
  | nil => simp [serialize_group, groupImage, encodedSizes]
  | cons a args ih =>
    simp only [encodedSizes] at h
    have hw : a.1 ≤ view.length := by omega
    have hrec : encodedSizes args ≤ (view.drop a.1).length := by
      simp only [List.length_drop]
      omega
    simp only [serialize_group, serialize_span_snd, serialize_span_written, ih _ hrec,
      groupImage, encodedSizes, List.drop_drop, Nat.add_comm (encodedSizes args) a.1]
    simp [List.append_assoc]

theorem deserialize_group_image (e : Endian) (args : List (Nat × Nat)) (tail : List Byte)
    (hv : ∀ a ∈ args, a.2 < 256 ^ a.1) :
    deserialize_group e (args.map fun a => a.1) (groupImage e args ++ tail) =
      (args.map fun a => a.2, tail) := by
  induction args with
  | nil => simp [deserialize_group, groupImage]
  | cons a args ih =>
    have hhead : a.2 < 256 ^ a.1 := hv a (List.mem_cons_self a args)
    have htail : ∀ b ∈ args, b.2 < 256 ^ b.1 := fun b hb => hv b (List.mem_cons_of_mem a hb)
    simp only [groupImage, List.map_cons, deserialize_group, deserialize_span,
      List.append_assoc]
    rw [take_append_length _ _ _ (toBytes_length a.1 a.2 e),
      drop_append_length _ _ _ (toBytes_length a.1 a.2 e),
      fromBytes_toBytes a.1 a.2 e hhead, ih htail]

/-- Modelled from the spec: the fixed-capacity serialize of section 4.5,
declared but not defined in the source.  The array, of size exactly the
encoded size of the value, is completely overwritten by the byte image of the
value; the returned view covers the whole filled array and leaves no
remainder. -/
def serialize_array (_buffer : List Byte) (w v : Nat) (e : Endian) : List Byte :=
  toBytes w v e

/-- Modelled from the spec: the value-returning fixed-capacity deserialize,
declared but not defined in the source: reads the whole array in order `e`
and returns the reconstructed value. -/
def deserialize_array_value (buffer : List Byte) (e : Endian) : Nat :=
  fromBytes buffer e

/-- Modelled from the spec: the in-place fixed-capacity deserialize, declared
but not defined in the source: stores the decoded value into the reference
target and returns the view past the consumed bytes, which is empty because
the whole array is consumed. -/
def deserialize_array_into (buffer : List Byte) (e : Endian) : Nat × List Byte :=
  (fromBytes buffer e, buffer.drop buffer.length)

/-- Claim C1, evaluated on the code at the failing input: the span-based
primitive serialize as its body stands in the source, applied to the 32-bit
value 0x01020304 with a 4-byte zeroed buffer and little-endian target order,
leaves the buffer untouched and returns void, while the claim requires the
bytes 04 03 02 01 (little-endian) respectively 01 02 03 04 (big-endian) to be
written into it.  The body contradicts the declaration's own documented
return of an offset view. -/
theorem C1_primitive_serialize_writes_nothing :
    serialize_spanAsWritten [0, 0, 0, 0] 0x01020304 Endian.little = ((), [0, 0, 0, 0]) ∧
    toBytes 4 0x01020304 Endian.little = [0x04, 0x03, 0x02, 0x01] ∧
    toBytes 4 0x01020304 Endian.big = [0x01, 0x02, 0x03, 0x04] ∧
    ([0, 0, 0, 0] : List Byte) ≠ [0x04, 0x03, 0x02, 0x01] :=
  ⟨rfl, by decide, by decide, by decide⟩

/-- Claim C10: the only overload with a body in the source, the span-based
primitive serialize, leaves every byte of the supplied buffer unchanged for
every value and byte order and returns no remainder view: its result is the
unit value of its deduced void return type, paired with the untouched
buffer state. -/
theorem C10_defined_overload_is_noop (buffer : List Byte) (v : Nat) (e : Endian) :
    serialize_spanAsWritten buffer v e = ((), buffer) := rfl

/-- Claim C8: a type that is neither arithmetic nor an enumeration and has no
user-supplied overload is rejected by the compile-time dispatch: the
static_assert condition of the primitive codec is false for it, so routing it
through the primitive codec cannot compile. -/
theorem C8_nonprimitive_type_rejected (t : CppType)
    (ha : t.arithmetic = false) (he : t.enumeration = false)
    (hu : t.hasUserOverload = false) :
    codecCompiles t = false := by
  simp [codecCompiles, primitiveCodecCheck, ha, he, hu]

/-- Witness for C8 at the concrete type category with no arithmetic, no
enumeration and no user overload. -/
theorem C8_nonprimitive_type_rejected_witness :
    codecCompiles ⟨false, false, false⟩ = false :=
  C8_nonprimitive_type_rejected ⟨false, false, false⟩ rfl rfl rfl

/-- Claim C7, counterexample: the group serialize declaration of the header
(the seventh declaration) carries no noexcept specifier, unlike the six
single-value overloads, so the universal no-exception guarantee the claim
states is not declared for the group operations. -/
theorem C7_group_decl_not_noexcept :
    (apiDecls.get ⟨6, by decide⟩).noexceptSpec = false ∧
    (apiDecls.get ⟨6, by decide⟩).isGroup = true := by
  decide

/-- Claim C7 as amended: a declaration of the header carries a noexcept
specifier exactly when it is not a group form — the six single-value
overloads are declared noexcept and never propagate an exception, while the
two group overloads carry no such declared guarantee. -/
theorem C7_noexcept_iff_single_value :
    (apiDecls.all fun d => d.noexceptSpec == !d.isGroup) = true := by
  decide

/-- Claim C2, evaluated on the code at the failing input: the defined
span-based primitive serialize writes nothing, so after "serializing" the
32-bit value 0x01020304 little-endian the 4-byte buffer still holds its
original zeroes and deserializing it with the matching order returns 0, not
0x01020304 — the round trip fails on the program, and serialize produces 0
bytes while deserialize consumes 4.  Under the specification's contract
(serialize_span) the round trip does restore the value, so the claim is the
documented intent and the defined body the slip. -/
theorem C2_roundtrip_fails_on_code :
    (serialize_spanAsWritten [0, 0, 0, 0] 0x01020304 Endian.little).2 = [0, 0, 0, 0] ∧
    (deserialize_span [0, 0, 0, 0] 4 Endian.little).1 = 0 ∧
    (0 : Nat) ≠ 0x01020304 ∧
    (deserialize_span (serialize_span [0, 0, 0, 0] 4 0x01020304 Endian.little).1
        4 Endian.little).1 = 0x01020304 :=
  ⟨rfl, by decide, by decide, by decide⟩

/-- Claim C3, evaluated on the code at the failing input: the defined
span-based primitive serialize produces no byte sequence for either byte
order — serializing the 2-byte value 0x0102 leaves the buffer untouched both
little- and big-endian — so no pair of mutually reversed sequences exists on
the program.  Under the specification's contract the produced sequences are
02 01 and 01 02, exact reverses, so the claim is the documented intent and
the defined body the slip. -/
theorem C3_reversal_fails_on_code :
    (serialize_spanAsWritten [0, 0] 0x0102 Endian.little).2 = [0, 0] ∧
    (serialize_spanAsWritten [0, 0] 0x0102 Endian.big).2 = [0, 0] ∧
    toBytes 2 0x0102 Endian.little = [0x02, 0x01] ∧
    toBytes 2 0x0102 Endian.big = [0x01, 0x02] ∧
    toBytes 2 0x0102 Endian.little = (toBytes 2 0x0102 Endian.big).reverse ∧
    ([0, 0] : List Byte) ≠ [0x02, 0x01] :=
  ⟨rfl, rfl, by decide, by decide, by decide, by decide⟩

/-- Claim C4, evaluated on the code at the failing input: the defined
span-based primitive serialize returns void, so no remaining view is returned
at all — serializing a 1-byte value into a 3-byte buffer yields only the
unchanged buffer.  Under the specification's contract the returned remainder
is the view over the unchanged trailing 2 bytes, of length 3 - 1, so the
claim is the documented intent and the defined body the slip. -/
theorem C4_remainder_fails_on_code :
    (serialize_spanAsWritten [1, 2, 3] 0xAB Endian.big).2 = [1, 2, 3] ∧
    (serialize_span [1, 2, 3] 1 0xAB Endian.big).2 = ([1, 2, 3] : List Byte).drop 1 ∧
    (serialize_span [1, 2, 3] 1 0xAB Endian.big).2.length =
      ([1, 2, 3] : List Byte).length - 1 :=
  ⟨rfl, by decide, by decide⟩

/-- Claim C5: the group serialize writes the byte images of its arguments left
to right, threading the remainder view of each step as the input view of the
next, returns the final remainder after the last argument, and consumes in
total the sum of the encoded sizes; the group deserialize recovers the values
in the same left-to-right order and consumes the same bytes. -/
theorem C5_group_left_to_right (e : Endian) (args : List (Nat × Nat)) (view : List Byte)
    (hlen : encodedSizes args ≤ view.length)
    (hv : ∀ a ∈ args, a.2 < 256 ^ a.1) :
    (serialize_group e args view).1 = groupImage e args ++ view.drop (encodedSizes args) ∧
    (serialize_group e args view).2 = view.drop (encodedSizes args) ∧
    view.length - (serialize_group e args view).2.length = encodedSizes args ∧
    (deserialize_group e (args.map fun a => a.1) (serialize_group e args view).1).1 =
      args.map (fun a => a.2) ∧
    (deserialize_group e (args.map fun a => a.1) (serialize_group e args view).1).2 =
      view.drop (encodedSizes args) := by
  have h1 := serialize_group_eq e args view hlen
  have hd := deserialize_group_image e args (view.drop (encodedSizes args)) hv
  refine ⟨by simp [h1], by simp [h1], ?_, by simp [h1, hd], by simp [h1, hd]⟩
  simp only [h1, List.length_drop]
  omega

/-- Witness for C5, matching the spec's own scenario: packing the pair
0x0102 (two bytes) and 0xFF (one byte) big-endian into a 3-byte buffer. -/
theorem C5_group_left_to_right_witness :
    (serialize_group Endian.big [(2, 0x0102), (1, 0xFF)] [0, 0, 0]).1 =
      groupImage Endian.big [(2, 0x0102), (1, 0xFF)] ++
        ([0, 0, 0] : List Byte).drop (encodedSizes [(2, 0x0102), (1, 0xFF)]) ∧
    (serialize_group Endian.big [(2, 0x0102), (1, 0xFF)] [0, 0, 0]).2 =
      ([0, 0, 0] : List Byte).drop (encodedSizes [(2, 0x0102), (1, 0xFF)]) ∧
    ([0, 0, 0] : List Byte).length -
      (serialize_group Endian.big [(2, 0x0102), (1, 0xFF)] [0, 0, 0]).2.length =
      encodedSizes [(2, 0x0102), (1, 0xFF)] ∧
    (deserialize_group Endian.big ([(2, 0x0102), (1, 0xFF)].map fun a => a.1)
        (serialize_group Endian.big [(2, 0x0102), (1, 0xFF)] [0, 0, 0]).1).1 =
      [(2, 0x0102), (1, 0xFF)].map (fun a => a.2) ∧
    (deserialize_group Endian.big ([(2, 0x0102), (1, 0xFF)].map fun a => a.1)
        (serialize_group Endian.big [(2, 0x0102), (1, 0xFF)] [0, 0, 0]).1).2 =
      ([0, 0, 0] : List Byte).drop (encodedSizes [(2, 0x0102), (1, 0xFF)]) :=
  C5_group_left_to_right Endian.big [(2, 0x0102), (1, 0xFF)] [0, 0, 0]
    (by decide) (by decide)

theorem append_same_tail_iff (x y t : List Byte) (h : x.length = y.length) :
    x ++ t = y ++ t ↔ x = y := by
  constructor
  · intro he
    have h2 := congrArg (List.take x.length) he
    rwa [take_append_length x t x.length rfl, take_append_length y t x.length h.symm] at h2
  · intro he
    rw [he]

/-- Claim C6, counterexample: for the one-byte values a = 1, b = 2, c = 1,
serializing the reversed group (c, b, a) big-endian into a 3-byte buffer
produces exactly the same byte sequence as serializing (a, b, c), yet the
three values do not all have identical byte patterns (b differs from a and
c), so the claimed disjunction is false at this input. -/
theorem C6_reversal_counterexample :
    ¬((serialize_group Endian.big ([(1, 1), (1, 2), (1, 1)].reverse) [0, 0, 0]).1 ≠
        (serialize_group Endian.big [(1, 1), (1, 2), (1, 1)] [0, 0, 0]).1 ∨
      (toBytes 1 1 Endian.big = toBytes 1 2 Endian.big ∧
        toBytes 1 2 Endian.big = toBytes 1 1 Endian.big)) := by
  decide

/-- Claim C6 as amended: serializing the group (a, b, c) into a sufficiently
large buffer and deserializing with the same order recovers a, b and c
exactly; and, when a and c have the same encoded width, serializing the
reversed group (c, b, a) produces the same byte sequence if and only if a and
c have identical byte patterns — so the sequence differs whenever their
patterns differ, regardless of b. -/
theorem C6_group_roundtrip_and_reversal (e : Endian) (wa va wb vb wc vc : Nat)
    (view : List Byte) (hlen : wa + wb + wc ≤ view.length)
    (hva : va < 256 ^ wa) (hvb : vb < 256 ^ wb) (hvc : vc < 256 ^ wc)
    (hw : wa = wc) :
    (deserialize_group e [wa, wb, wc]
        (serialize_group e [(wa, va), (wb, vb), (wc, vc)] view).1).1 = [va, vb, vc] ∧
    ((serialize_group e [(wc, vc), (wb, vb), (wa, va)] view).1 =
        (serialize_group e [(wa, va), (wb, vb), (wc, vc)] view).1 ↔
      toBytes wc vc e = toBytes wa va e) := by
  have hs1 : encodedSizes [(wa, va), (wb, vb), (wc, vc)] = wa + wb + wc := by
    simp only [encodedSizes]
    omega
  have hs2 : encodedSizes [(wc, vc), (wb, vb), (wa, va)] = wa + wb + wc := by
    simp only [encodedSizes]
    omega
  have h1 := serialize_group_eq e [(wa, va), (wb, vb), (wc, vc)] view (by rw [hs1]; exact hlen)
  have h2 := serialize_group_eq e [(wc, vc), (wb, vb), (wa, va)] view (by rw [hs2]; exact hlen)
  have hv1 : ∀ a ∈ [(wa, va), (wb, vb), (wc, vc)], a.2 < 256 ^ a.1 := by
    intro a ha
    simp only [List.mem_cons, List.not_mem_nil, or_false] at ha
    rcases ha with rfl | rfl | rfl <;> assumption
  have hda := deserialize_group_image e [(wa, va), (wb, vb), (wc, vc)]
    (view.drop (encodedSizes [(wa, va), (wb, vb), (wc, vc)])) hv1
  simp only [List.map_cons, List.map_nil] at hda
  constructor
  · simp only [h1]
    rw [hda]
  · simp only [h1, h2, hs1, hs2]
    have hlena : (groupImage e [(wc, vc), (wb, vb), (wa, va)]).length =
        (groupImage e [(wa, va), (wb, vb), (wc, vc)]).length := by
      rw [groupImage_length, groupImage_length, hs1, hs2]
    rw [append_same_tail_iff _ _ _ hlena]
    constructor
    · intro hx
      simp only [groupImage, List.append_nil] at hx
      have h3 := congrArg (List.take wc) hx
      rw [take_append_length _ _ _ (toBytes_length wc vc e),
        take_append_length _ _ _ (by rw [toBytes_length]; exact hw)] at h3
      exact h3
    · intro he
      simp only [groupImage, List.append_nil]
      rw [he]

/-- Witness for the amended C6: one-byte values 3 and 4 at the outer
positions, the two-byte value 0x0102 in the middle, little-endian, 5-byte
buffer. -/
theorem C6_group_roundtrip_and_reversal_witness :
    (deserialize_group Endian.little [1, 2, 1]
        (serialize_group Endian.little [(1, 3), (2, 0x0102), (1, 4)] [9, 9, 9, 9, 9]).1).1 =
      [3, 0x0102, 4] ∧
    ((serialize_group Endian.little [(1, 4), (2, 0x0102), (1, 3)] [9, 9, 9, 9, 9]).1 =
        (serialize_group Endian.little [(1, 3), (2, 0x0102), (1, 4)] [9, 9, 9, 9, 9]).1 ↔
      toBytes 1 4 Endian.little = toBytes 1 3 Endian.little) :=
  C6_group_roundtrip_and_reversal Endian.little 1 3 2 0x0102 1 4 [9, 9, 9, 9, 9]
    (by decide) (by decide) (by decide) (by decide) rfl

/-- Claim C9: on an array whose size is exactly the encoded size `w` of the
value, the fixed-capacity serialize fills the array completely — the result
has length `w` and is independent of the prior contents, leaving no untouched
byte and no remainder; the value-returning deserialize and the in-place
deserialize both recover the original value, the in-place form consuming the
whole array; and any array size different from `w` is rejected by the
compile-time size check. -/
theorem C9_fixed_capacity_exact (w v : Nat) (e : Endian) (old1 old2 : List Byte)
    (hv : v < 256 ^ w) :
    (serialize_array old1 w v e).length = w ∧
    serialize_array old1 w v e = serialize_array old2 w v e ∧
    deserialize_array_value (serialize_array old1 w v e) e = v ∧
    (deserialize_array_into (serialize_array old1 w v e) e).1 = v ∧
    (deserialize_array_into (serialize_array old1 w v e) e).2 = [] ∧
    (∀ s : Nat, fixedSizeCheck s w = true ↔ s = w) := by
  refine ⟨toBytes_length w v e, rfl, fromBytes_toBytes w v e hv,
    fromBytes_toBytes w v e hv, ?_, ?_⟩
  · simp [deserialize_array_into]
  · intro s
    simp [fixedSizeCheck]

/-- Witness for C9: the two-byte value 0x0102, big-endian, over two distinct
stale buffers. -/
theorem C9_fixed_capacity_exact_witness :
    (serialize_array [5, 5] 2 0x0102 Endian.big).length = 2 ∧
    serialize_array [5, 5] 2 0x0102 Endian.big = serialize_array [6, 6] 2 0x0102 Endian.big ∧
    deserialize_array_value (serialize_array [5, 5] 2 0x0102 Endian.big) Endian.big = 0x0102 ∧
    (deserialize_array_into (serialize_array [5, 5] 2 0x0102 Endian.big) Endian.big).1 = 0x0102 ∧
    (deserialize_array_into (serialize_array [5, 5] 2 0x0102 Endian.big) Endian.big).2 = [] ∧
    (∀ s : Nat, fixedSizeCheck s 2 = true ↔ s = 2) :=
  C9_fixed_capacity_exact 2 0x0102 Endian.big [5, 5] [6, 6] (by decide)

end Serialization
